import Mathlib

/-!
Shallow embedding of `src/worker.js` (the `RoomDO` durable object of the
VALUE:time room worker).  Pure data is translated directly; the durable
storage (`this.state.storage`) becomes an explicit `DOState` record, and
every `storage.put` is recorded in an explicit write trace (`WriteOp`) so
that persistence behaviour is visible in the theorems.  `Date.now()` is
passed in as an explicit `now : Nat` parameter.  WebSocket sends are
modelled by a `sendOk` flag on each live session: `sendOk = false` means
`ws.send` throws (the `try { } catch { }` of `_broadcast` swallows it).
-/

namespace VTR

/-- JS `String.prototype.trim`: strip leading and trailing whitespace. -/
def trimChars (l : List Char) : List Char :=
  ((l.dropWhile Char.isWhitespace).reverse.dropWhile Char.isWhitespace).reverse

/-- `clampStr` from worker.js: `String(s ?? "").trim().slice(0, max)`.
Characters stand in for JS code units. -/
def clampStr (s : String) (max : Nat) : String :=
  String.mk ((trimChars s.data).take max)

/-- A roster entry, as pushed by `_addParticipant`. -/
structure Participant where
  id : String
  name : String
  role : String
  joinedAt : Nat
deriving DecidableEq, Repr

/-- The room focus record; the JS field `type` is spelled `ftype`. -/
structure FocusState where
  ftype : String
  content : String
  author : String
  authorName : String
  ts : Nat
deriving DecidableEq, Repr

/-- A timeline entry; the JS field `by` (a reserved word in Lean) is spelled `byId`. -/
structure TimelineEvent where
  ts : Nat
  kind : String
  byId : String
deriving DecidableEq, Repr

/-- One invite record, the value stored under a token key in `invites`. -/
structure InviteEntry where
  createdAt : Nat
  ttlMs : Nat
deriving DecidableEq, Repr

/-- The durable `"room"` record. -/
structure Room where
  startedAt : Nat
  focus : FocusState
  participants : List Participant
  timeline : List TimelineEvent
deriving DecidableEq, Repr

/-- A live session entry of `this.sessions` (`clientId -> { ws, name, role }`);
`sendOk` models whether `ws.send` succeeds. -/
structure Session where
  name : String
  role : String
  sendOk : Bool
deriving DecidableEq, Repr

/-- One `storage.put` call. -/
inductive WriteOp where
  | putRoom (r : Room)
  | putInvites (inv : List (String × InviteEntry))
deriving DecidableEq, Repr

/-- The whole mutable state of one `RoomDO` instance: the two durable keys
(`"room"`, `"invites"`) plus the non-durable live-session map. -/
structure DOState where
  room : Option Room
  invites : List (String × InviteEntry)
  sessions : List (String × Session)
deriving DecidableEq, Repr

def emptyDO : DOState := { room := none, invites := [], sessions := [] }

/-- JS object / `Map.set` style keyed update: overwrite in place, else append. -/
def setKV {β : Type} (k : String) (v : β) : List (String × β) → List (String × β)
  | [] => [(k, v)]
  | (k2, v2) :: rest => if k2 = k then (k, v) :: rest else (k2, v2) :: setKV k v rest

/-! ### makeToken (worker.js lines 26-32)

`crypto.getRandomValues(new Uint8Array(18))` is modelled by taking the 18
random bytes as an explicit argument; `btoa(String.fromCharCode(...a))`
is standard base64 over those bytes, then `+ -> -`, `/ -> _`, `=` stripped. -/

def b64Alphabet : List Char :=
  ['A','B','C','D','E','F','G','H','I','J','K','L','M','N','O','P','Q','R','S','T','U','V','W','X','Y','Z',
   'a','b','c','d','e','f','g','h','i','j','k','l','m','n','o','p','q','r','s','t','u','v','w','x','y','z',
   '0','1','2','3','4','5','6','7','8','9','+','/']

def b64Char (n : Nat) : Char := b64Alphabet.getD n 'A'

/-- `.replaceAll("+", "-").replaceAll("/", "_")` at character level. -/
def replUrl (c : Char) : Char :=
  if c = '+' then '-' else if c = '/' then '_' else c

/-- One 3-byte base64 group. -/
def encode3 (a b c : Nat) : List Char :=
  [b64Char (a / 4), b64Char ((a % 4) * 16 + b / 16),
   b64Char ((b % 16) * 4 + c / 64), b64Char (c % 64)]

/-- Standard base64 of a byte list (with `=` padding, as `btoa` produces). -/
def b64encode : List Nat → List Char
  | [] => []
  | [a] => [b64Char (a / 4), b64Char ((a % 4) * 16), '=', '=']
  | [a, b] => [b64Char (a / 4), b64Char ((a % 4) * 16 + b / 16), b64Char ((b % 16) * 4), '=']
  | a :: b :: c :: rest => encode3 a b c ++ b64encode rest

/-- `makeToken` of worker.js applied to the 18 random bytes. -/
def makeToken (bytes : List Nat) : String :=
  String.mk (((b64encode bytes).map replUrl).filter (fun c => c != '='))

/-- Inverse of `replUrl ∘ b64Char`, used only to prove the token injective. -/
def urlInv (c : Char) : Nat :=
  if c = '-' then 62 else if c = '_' then 63 else b64Alphabet.indexOf c

def decode4 (c1 c2 c3 c4 : Nat) : List Nat :=
  [c1 * 4 + c2 / 16, (c2 % 16) * 16 + c3 / 4, (c3 % 4) * 64 + c4]

def b64decode : List Char → List Nat
  | c1 :: c2 :: c3 :: c4 :: rest => decode4 (urlInv c1) (urlInv c2) (urlInv c3) (urlInv c4) ++ b64decode rest
  | _ => []

/-- URL-safe alphabet check for one token character. -/
def urlSafeChar (c : Char) : Bool := c.isAlphanum || c = '-' || c = '_'

/-- Well-formed random input of `makeToken`: exactly 18 bytes. -/
def byteListOK (l : List Nat) : Bool := (l.length == 18) && l.all (fun b => b < 256)

/-! ### Room construction and mutations (worker.js lines 88-99, 188-232) -/

/-- The fresh room literal of the `/init` branch (lines 89-95). -/
def roomInit (now : Nat) : Room :=
  { startedAt := now,
    focus := { ftype := "question", content := "", author := "", authorName := "", ts := now },
    participants := [],
    timeline := [{ ts := now, kind := "room_started", byId := "" }] }

/-- The fresh room literal of the lazy `_getRoom` path (lines 191-197). -/
def freshRoom (now : Nat) : Room :=
  { startedAt := now,
    focus := { ftype := "question", content := "", author := "", authorName := "", ts := now },
    participants := [],
    timeline := [{ ts := now, kind := "room_started", byId := "" }] }

/-- The `/init` branch (lines 88-99): stores a fresh room and an empty invite set. -/
def initBranch (now : Nat) (d : DOState) : DOState × List WriteOp :=
  ({ d with room := some (roomInit now), invites := [] },
   [WriteOp.putRoom (roomInit now), WriteOp.putInvites []])

/-- State of a `RoomDO` right after the `/init` branch ran on a blank object. -/
def initDO (now : Nat) : DOState := (initBranch now emptyDO).1

/-- `_getRoom` (lines 188-200): returns the stored room, lazily creating it. -/
def _getRoom (now : Nat) (d : DOState) : Room × DOState × List WriteOp :=
  match d.room with
  | some r => (r, d, [])
  | none => (freshRoom now, { d with room := some (freshRoom now) },
             [WriteOp.putRoom (freshRoom now)])

/-- `_publicState` (lines 202-205). -/
def _publicState (now : Nat) (d : DOState) :
    (Nat × List Participant × FocusState) × DOState × List WriteOp :=
  let g := _getRoom now d
  ((g.1.startedAt, g.1.participants, g.1.focus), g.2.1, g.2.2)

/-- `_getFocus` (lines 207-210). -/
def _getFocus (now : Nat) (d : DOState) : FocusState × DOState × List WriteOp :=
  let g := _getRoom now d
  (g.1.focus, g.2.1, g.2.2)

/-- `_addParticipant` (lines 212-217). -/
def _addParticipant (now : Nat) (p : Participant) (d : DOState) : DOState × List WriteOp :=
  let g := _getRoom now d
  let room2 := { g.1 with participants := g.1.participants ++ [p],
                          timeline := g.1.timeline ++ [{ ts := now, kind := "join", byId := p.id }] }
  ({ g.2.1 with room := some room2 }, g.2.2 ++ [WriteOp.putRoom room2])

/-- `_removeParticipant` (lines 219-224). -/
def _removeParticipant (now : Nat) (i : String) (d : DOState) : DOState × List WriteOp :=
  let g := _getRoom now d
  let room2 := { g.1 with participants := g.1.participants.filter (fun x => x.id != i),
                          timeline := g.1.timeline ++ [{ ts := now, kind := "leave", byId := i }] }
  ({ g.2.1 with room := some room2 }, g.2.2 ++ [WriteOp.putRoom room2])

/-- `_setFocus` (lines 226-232); `sender?.name || ""` becomes a lookup with default. -/
def _setFocus (now : Nat) (b ftype content : String) (d : DOState) : DOState × List WriteOp :=
  let g := _getRoom now d
  let sender := d.sessions.lookup b
  let room2 := { g.1 with
    focus := { ftype := ftype, content := content, author := b,
               authorName := (sender.map Session.name).getD "", ts := now },
    timeline := g.1.timeline ++ [{ ts := now, kind := "set_focus", byId := b }] }
  ({ g.2.1 with room := some room2 }, g.2.2 ++ [WriteOp.putRoom room2])

/-! ### Outbound messages and broadcast (worker.js lines 234-239) -/

inductive OutMsg where
  | presence (startedAt : Nat) (participants : List Participant) (focus : FocusState)
  | focus (f : FocusState)
deriving DecidableEq, Repr

def jstr (s : String) : String := "\"" ++ s ++ "\""

def serializeFocus (f : FocusState) : String :=
  "\x7b\"type\":" ++ jstr f.ftype ++ ",\"content\":" ++ jstr f.content ++
    ",\"author\":" ++ jstr f.author ++ ",\"authorName\":" ++ jstr f.authorName ++
    ",\"ts\":" ++ toString f.ts ++ "\x7d"

def serializeParticipant (p : Participant) : String :=
  "\x7b\"id\":" ++ jstr p.id ++ ",\"name\":" ++ jstr p.name ++ ",\"role\":" ++ jstr p.role ++
    ",\"joinedAt\":" ++ toString p.joinedAt ++ "\x7d"

/-- `JSON.stringify` of the two outbound message shapes. -/
def serializeOut : OutMsg → String
  | OutMsg.presence st ps f =>
      "\x7b\"kind\":\"presence\",\"payload\":\x7b\"startedAt\":" ++ toString st ++
        ",\"participants\":[" ++ String.intercalate "," (ps.map serializeParticipant) ++
        "],\"focus\":" ++ serializeFocus f ++ "\x7d\x7d"
  | OutMsg.focus f =>
      "\x7b\"kind\":\"focus\",\"payload\":" ++ serializeFocus f ++ "\x7d"

/-- `try { s.ws.send(data) } catch {}`: delivery result of one send attempt. -/
def trySend (s : Session) (data : String) : Option String :=
  if s.sendOk then some data else none

/-- `_broadcast` (lines 234-239): serialize once, then attempt every session. -/
def _broadcast (message : OutMsg) (sessions : List (String × Session)) :
    List (String × Option String) :=
  let data := serializeOut message
  sessions.map (fun kv => (kv.1, trySend kv.2 data))

/-! ### Invite issue branch and token validation (lines 102-113, 117-136) -/

def INVITE_TTL_MS : Nat := 15 * 60 * 1000

/-- The `/invite` branch (lines 102-113): record the token, persist, return
`(token, expiresAt)`. The random token is an explicit argument. -/
def inviteBranch (now : Nat) (token : String) (d : DOState) :
    (String × Nat) × DOState × List WriteOp :=
  let invites2 := setKV token { createdAt := now, ttlMs := INVITE_TTL_MS } d.invites
  ((token, now + INVITE_TTL_MS), { d with invites := invites2 },
   [WriteOp.putInvites invites2])

inductive ValidateResult where
  | ok
  | notFound
  | expired
deriving DecidableEq, Repr

/-- Connect-time token validation (lines 123-132): lookup, expiry check with
lazy pruning of the expired entry. -/
def validateToken (now : Nat) (token : String) (invites : List (String × InviteEntry)) :
    ValidateResult × List (String × InviteEntry) × List WriteOp :=
  match invites.lookup token with
  | none => (ValidateResult.notFound, invites, [])
  | some entry =>
      if now - entry.createdAt > entry.ttlMs then
        (ValidateResult.expired, invites.filter (fun kv => kv.1 != token),
         [WriteOp.putInvites (invites.filter (fun kv => kv.1 != token))])
      else (ValidateResult.ok, invites, [])

inductive WsOutcome where
  | reject (status : Nat) (body : String)
  | upgrade (clientId : String)
deriving DecidableEq, Repr

structure WsResult where
  outcome : WsOutcome
  state : DOState
  writes : List WriteOp
  toNew : List String
  fanout : List (List (String × Option String))
deriving DecidableEq, Repr

/-- The websocket branch of `RoomDO.fetch` (lines 116-183), up to and
including the initial presence sends.  `crypto.randomUUID()` and the send
behaviour of the new socket are explicit arguments. -/
def wsConnect (now : Nat) (qToken qName qRole : Option String) (clientId : String)
    (newOk : Bool) (d : DOState) : WsResult :=
  let token := clampStr (qToken.getD "") 200
  let name0 := match qName with | none => "Gast" | some s => if s = "" then "Gast" else s
  let name1 := clampStr name0 40
  let name := if name1 = "" then "Gast" else name1
  let role0 := match qRole with | none => "Gast" | some s => if s = "" then "Gast" else s
  let role1 := clampStr role0 20
  let role := if role1 = "" then "Gast" else role1
  if token = "" then
    { outcome := WsOutcome.reject 401 "Missing token", state := d, writes := [],
      toNew := [], fanout := [] }
  else
    let v := validateToken now token d.invites
    match v.1 with
    | ValidateResult.notFound =>
        { outcome := WsOutcome.reject 401 "Invalid invite", state := d, writes := [],
          toNew := [], fanout := [] }
    | ValidateResult.expired =>
        { outcome := WsOutcome.reject 401 "Invite expired",
          state := { d with invites := v.2.1 }, writes := v.2.2, toNew := [], fanout := [] }
    | ValidateResult.ok =>
        let d1 := { d with sessions := setKV clientId { name := name, role := role, sendOk := newOk } d.sessions }
        let a := _addParticipant now { id := clientId, name := name, role := role, joinedAt := now } d1
        let p1 := _publicState now a.1
        let direct := serializeOut (OutMsg.presence p1.1.1 p1.1.2.1 p1.1.2.2)
        let p2 := _publicState now p1.2.1
        let fan := _broadcast (OutMsg.presence p2.1.1 p2.1.2.1 p2.1.2.2) p2.2.1.sessions
        { outcome := WsOutcome.upgrade clientId, state := p2.2.1,
          writes := a.2 ++ p1.2.2 ++ p2.2.2, toNew := [direct], fanout := [fan] }

/-- The `set_focus` message handler (lines 157-164): normalize `type`,
cap `content`, mutate, then broadcast the fresh focus. -/
def handleSetFocus (now : Nat) (clientId : String) (pt pc : Option String) (d : DOState) :
    DOState × List WriteOp × List (String × Option String) :=
  let ftype := if pt = some "text" then "text" else "question"
  let content := clampStr (pc.getD "") 4000
  let s := _setFocus now clientId ftype content d
  let g := _getFocus now s.1
  (g.2.1, s.2 ++ g.2.2, _broadcast (OutMsg.focus g.1) g.2.1.sessions)

/-! ### Replay layers used by the invariant claims -/

/-- The three room mutations, tagged. -/
inductive Mutation where
  | addP (p : Participant)
  | removeP (i : String)
  | setF (b ftype content : String)
deriving DecidableEq, Repr

def applyMutation (now : Nat) (m : Mutation) (d : DOState) : DOState × List WriteOp :=
  match m with
  | Mutation.addP p => _addParticipant now p d
  | Mutation.removeP i => _removeParticipant now i d
  | Mutation.setF b t c => _setFocus now b t c d

def mutKind : Mutation → String
  | Mutation.addP _ => "join"
  | Mutation.removeP _ => "leave"
  | Mutation.setF _ _ _ => "set_focus"

def mutBy : Mutation → String
  | Mutation.addP p => p.id
  | Mutation.removeP i => i
  | Mutation.setF b _ _ => b

def applyMutations (now : Nat) (ms : List Mutation) (d : DOState) : DOState :=
  ms.foldl (fun d m => (applyMutation now m d).1) d

def timelineLen (d : DOState) : Nat :=
  match d.room with
  | some r => r.timeline.length
  | none => 0

/-- Connect / Disconnect events of one room, as they hit the roster. -/
inductive RoomEv where
  | connect (p : Participant)
  | disconnect (i : String)
deriving DecidableEq, Repr

def applyRoomEv (now : Nat) (ev : RoomEv) (d : DOState) : DOState :=
  match ev with
  | RoomEv.connect p => (_addParticipant now p d).1
  | RoomEv.disconnect i => (_removeParticipant now i d).1

def replayEvents (now : Nat) (evs : List RoomEv) (d : DOState) : DOState :=
  evs.foldl (fun d e => applyRoomEv now e d) d

def connects : List RoomEv → List Participant
  | [] => []
  | RoomEv.connect p :: rest => p :: connects rest
  | RoomEv.disconnect _ :: rest => connects rest

def discIds : List RoomEv → List String
  | [] => []
  | RoomEv.connect _ :: rest => discIds rest
  | RoomEv.disconnect i :: rest => i :: discIds rest

/-- Session ids are fresh per connection: after a disconnect of `i`,
no later connect reuses `i`. -/
def wfTrace : List RoomEv → Bool
  | [] => true
  | RoomEv.connect _ :: rest => wfTrace rest
  | RoomEv.disconnect i :: rest => (connects rest).all (fun p => p.id != i) && wfTrace rest

def partsOf (d : DOState) : List Participant :=
  match d.room with
  | some r => r.participants
  | none => []

/-- Client-visible operations on an active room, with `set_focus`
going through the message handler. -/
inductive ClientOp where
  | joinOp (p : Participant)
  | leaveOp (i : String)
  | focusOp (clientId : String) (pt pc : Option String)
deriving DecidableEq, Repr

def applyClientOp (now : Nat) (op : ClientOp) (d : DOState) : DOState :=
  match op with
  | ClientOp.joinOp p => (_addParticipant now p d).1
  | ClientOp.leaveOp i => (_removeParticipant now i d).1
  | ClientOp.focusOp c pt pc => (handleSetFocus now c pt pc d).1

def replayOps (now : Nat) (ops : List ClientOp) (d : DOState) : DOState :=
  ops.foldl (fun d op => applyClientOp now op d) d

def noFocusMsg (ops : List ClientOp) : Bool :=
  ops.all (fun op => match op with | ClientOp.focusOp _ _ _ => false | _ => true)

def focusOf (d : DOState) : Option FocusState := d.room.map Room.focus

def focusWF (f : FocusState) : Bool := (f.ftype == "question") || (f.ftype == "text")

def focusOK (d : DOState) : Bool :=
  match d.room with
  | some r => focusWF r.focus
  | none => false

/-! ### Helper lemmas -/

theorem lookup_setKV_self {β : Type} (k : String) (v : β) (l : List (String × β)) :
    (setKV k v l).lookup k = some v := by
  induction l with
  | nil => simp [setKV, List.lookup]
  | cons kv rest ih =>
    obtain ⟨k2, v2⟩ := kv
    by_cases h : k2 = k
    · simp [setKV, h, List.lookup]
    · have hne : (k == k2) = false := by simp [Ne.symm h]
      simp [setKV, h, List.lookup, hne, ih]

theorem lookup_filter_ne {β : Type} (k : String) (l : List (String × β)) :
    (l.filter (fun kv => kv.1 != k)).lookup k = none := by
  induction l with
  | nil => rfl
  | cons kv rest ih =>
    by_cases h : kv.1 = k
    · simp [List.filter_cons, h, ih]
    · have hne : (k == kv.1) = false := by simp [Ne.symm h]
      simp [List.filter_cons, h, List.lookup, hne, ih]

/-! ### Claim theorems -/

/-- C7: the explicit `/init` branch and the lazy `_getRoom` creation path
construct and persist the same fresh-Room shape: given equal timestamps the
two constructed rooms are equal, both are stored, and the shape is
`startedAt = now`, the default focus, no participants, and a timeline holding
exactly the one `room_started` event. -/
theorem C7_create_paths_converge (now : Nat) (d : DOState) (hd : d.room = none) :
    roomInit now = freshRoom now
    ∧ (initBranch now d).1.room = some (freshRoom now)
    ∧ (_getRoom now d).1 = freshRoom now
    ∧ (_getRoom now d).2.1.room = some (freshRoom now)
    ∧ (initBranch now d).2 = [WriteOp.putRoom (freshRoom now), WriteOp.putInvites []]
    ∧ (_getRoom now d).2.2 = [WriteOp.putRoom (freshRoom now)]
    ∧ freshRoom now =
        { startedAt := now,
          focus := { ftype := "question", content := "", author := "", authorName := "", ts := now },
          participants := [],
          timeline := [{ ts := now, kind := "room_started", byId := "" }] } := by
  simp [_getRoom, hd, initBranch, roomInit, freshRoom]

theorem C7_witness :
    emptyDO.room = none
    ∧ (roomInit 5 = freshRoom 5
      ∧ (initBranch 5 emptyDO).1.room = some (freshRoom 5)
      ∧ (_getRoom 5 emptyDO).1 = freshRoom 5
      ∧ (_getRoom 5 emptyDO).2.1.room = some (freshRoom 5)
      ∧ (initBranch 5 emptyDO).2 = [WriteOp.putRoom (freshRoom 5), WriteOp.putInvites []]
      ∧ (_getRoom 5 emptyDO).2.2 = [WriteOp.putRoom (freshRoom 5)]
      ∧ freshRoom 5 =
          { startedAt := 5,
            focus := { ftype := "question", content := "", author := "", authorName := "", ts := 5 },
            participants := [],
            timeline := [{ ts := 5, kind := "room_started", byId := "" }] }) :=
  ⟨rfl, C7_create_paths_converge 5 emptyDO rfl⟩

/-- C10: removing an id that is not on the roster leaves `participants`
unchanged, still appends a `leave` timeline event carrying that id, and
persists the room in one write. -/
theorem C10_remove_absent_id (now : Nat) (i : String) (d : DOState) (r : Room)
    (hd : d.room = some r)
    (habs : r.participants.all (fun x => x.id != i) = true) :
    (_removeParticipant now i d).1.room
      = some { r with timeline := r.timeline ++ [{ ts := now, kind := "leave", byId := i }] }
    ∧ (_removeParticipant now i d).2
      = [WriteOp.putRoom { r with timeline := r.timeline ++ [{ ts := now, kind := "leave", byId := i }] }] := by
  have hfilter : r.participants.filter (fun x => x.id != i) = r.participants :=
    List.filter_eq_self.mpr (List.all_eq_true.mp habs)
  simp [_removeParticipant, _getRoom, hd, hfilter]

theorem C10_witness :
    ((initDO 0).room = some (roomInit 0)
      ∧ (roomInit 0).participants.all (fun x => x.id != "ghost") = true)
    ∧ ((_removeParticipant 4 "ghost" (initDO 0)).1.room
        = some { (roomInit 0) with
            timeline := (roomInit 0).timeline ++ [{ ts := 4, kind := "leave", byId := "ghost" }] }
      ∧ (_removeParticipant 4 "ghost" (initDO 0)).2
        = [WriteOp.putRoom { (roomInit 0) with
            timeline := (roomInit 0).timeline ++ [{ ts := 4, kind := "leave", byId := "ghost" }] }]) :=
  ⟨⟨rfl, rfl⟩, C10_remove_absent_id 4 "ghost" (initDO 0) (roomInit 0) rfl rfl⟩

/-- C3: connect-time token validation succeeds iff the token is present and
`now - createdAt ≤ ttl`; it fails `NotFound` exactly when absent and
`Expired` exactly when present but stale; on `Expired` it prunes the entry
from the invite set and persists the pruned set in one write; on success the
invite set is untouched (no write), so the same token validates again. -/
theorem C3_token_validation (now : Nat) (token : String)
    (invites : List (String × InviteEntry)) :
    ((validateToken now token invites).1 = ValidateResult.ok
      ↔ (invites.lookup token).map (fun e => decide (now - e.createdAt ≤ e.ttlMs)) = some true)
    ∧ ((validateToken now token invites).1 = ValidateResult.notFound
      ↔ invites.lookup token = none)
    ∧ ((validateToken now token invites).1 = ValidateResult.expired
      ↔ (invites.lookup token).map (fun e => decide (now - e.createdAt ≤ e.ttlMs)) = some false)
    ∧ ((validateToken now token invites).1 = ValidateResult.expired →
        (validateToken now token invites).2.1 = invites.filter (fun kv => kv.1 != token)
        ∧ (validateToken now token invites).2.2
          = [WriteOp.putInvites (invites.filter (fun kv => kv.1 != token))]
        ∧ ((validateToken now token invites).2.1.lookup token) = none)
    ∧ ((validateToken now token invites).1 = ValidateResult.ok →
        (validateToken now token invites).2.1 = invites
        ∧ (validateToken now token invites).2.2 = []
        ∧ (validateToken now token ((validateToken now token invites).2.1)).1
            = ValidateResult.ok) := by
  unfold validateToken
  cases hl : invites.lookup token with
  | none => simp [hl]
  | some e =>
    by_cases hexp : now - e.createdAt > e.ttlMs
    · have hb : decide (now - e.createdAt ≤ e.ttlMs) = false := by
        simp; omega
      simp [hl, hexp, hb, lookup_filter_ne]
      omega
    · have hb : decide (now - e.createdAt ≤ e.ttlMs) = true := by
        simp; omega
      simp [hl, hexp, hb]
      omega

theorem broadcast_fst (msg : OutMsg) (ss : List (String × Session)) :
    (_broadcast msg ss).map Prod.fst = ss.map Prod.fst := by
  simp only [_broadcast]
  induction ss with
  | nil => rfl
  | cons kv rest ih => simp [ih]

theorem broadcast_delivered (msg : OutMsg) (ss : List (String × Session)) :
    (_broadcast msg ss).filterMap (fun kv => kv.2.map (fun dta => (kv.1, dta)))
      = (ss.filter (fun kv => kv.2.sendOk)).map (fun kv => (kv.1, serializeOut msg)) := by
  simp only [_broadcast]
  induction ss with
  | nil => rfl
  | cons kv rest ih =>
    by_cases h : kv.2.sendOk <;>
      simp [trySend, h, List.filterMap_cons, List.filter_cons] at ih ⊢ <;>
      exact ih

theorem length_filter_split {α : Type} (p : α → Bool) (l : List α) :
    (l.filter p).length + (l.filter (fun a => !p a)).length = l.length := by
  induction l with
  | nil => rfl
  | cons a t ih => by_cases h : p a <;> simp [List.filter_cons, h] <;> omega

/-- C6: `_broadcast` serializes the message once and attempts delivery to
every registered connection in order; with exactly one failing connection the
other `K - 1` all receive the single serialized message, and the failure
neither aborts the iteration nor affects the others. -/
theorem C6_broadcast_one_failure (msg : OutMsg) (sessions : List (String × Session))
    (hone : (sessions.filter (fun kv => !kv.2.sendOk)).length = 1) :
    (_broadcast msg sessions).map Prod.fst = sessions.map Prod.fst
    ∧ (_broadcast msg sessions).filterMap (fun kv => kv.2.map (fun dta => (kv.1, dta)))
        = (sessions.filter (fun kv => kv.2.sendOk)).map (fun kv => (kv.1, serializeOut msg))
    ∧ ((_broadcast msg sessions).filterMap (fun kv => kv.2.map (fun dta => (kv.1, dta)))).length
        = sessions.length - 1 := by
  refine ⟨broadcast_fst msg sessions, broadcast_delivered msg sessions, ?_⟩
  rw [broadcast_delivered msg sessions, List.length_map]
  have := length_filter_split (fun kv => kv.2.sendOk) sessions
  omega

theorem C6_witness :
    (([("a", Session.mk "A" "r" true), ("b", Session.mk "B" "r" false),
        ("c", Session.mk "C" "r" true)].filter (fun kv => !kv.2.sendOk)).length = 1)
    ∧ ((_broadcast (OutMsg.focus (FocusState.mk "question" "x" "a" "A" 1))
          [("a", Session.mk "A" "r" true), ("b", Session.mk "B" "r" false),
           ("c", Session.mk "C" "r" true)]).map Prod.fst
        = [("a", Session.mk "A" "r" true), ("b", Session.mk "B" "r" false),
           ("c", Session.mk "C" "r" true)].map Prod.fst
      ∧ (_broadcast (OutMsg.focus (FocusState.mk "question" "x" "a" "A" 1))
          [("a", Session.mk "A" "r" true), ("b", Session.mk "B" "r" false),
           ("c", Session.mk "C" "r" true)]).filterMap (fun kv => kv.2.map (fun dta => (kv.1, dta)))
        = ([("a", Session.mk "A" "r" true), ("b", Session.mk "B" "r" false),
            ("c", Session.mk "C" "r" true)].filter (fun kv => kv.2.sendOk)).map
            (fun kv => (kv.1, serializeOut (OutMsg.focus (FocusState.mk "question" "x" "a" "A" 1))))
      ∧ ((_broadcast (OutMsg.focus (FocusState.mk "question" "x" "a" "A" 1))
          [("a", Session.mk "A" "r" true), ("b", Session.mk "B" "r" false),
           ("c", Session.mk "C" "r" true)]).filterMap
            (fun kv => kv.2.map (fun dta => (kv.1, dta)))).length
        = [("a", Session.mk "A" "r" true), ("b", Session.mk "B" "r" false),
           ("c", Session.mk "C" "r" true)].length - 1) :=
  ⟨rfl, C6_broadcast_one_failure (OutMsg.focus (FocusState.mk "question" "x" "a" "A" 1))
    [("a", Session.mk "A" "r" true), ("b", Session.mk "B" "r" false),
     ("c", Session.mk "C" "r" true)] rfl⟩

theorem applyMutation_room (now : Nat) (m : Mutation) (d : DOState) (r : Room)
    (hd : d.room = some r) :
    ∃ r2, (applyMutation now m d).1.room = some r2
      ∧ r2.timeline = r.timeline ++ [{ ts := now, kind := mutKind m, byId := mutBy m }] := by
  cases m with
  | addP p =>
    refine ⟨?_, ?_, ?_⟩
    case _ =>
      exact
        { r with
          participants := r.participants ++ [p],
          timeline := r.timeline ++ [{ ts := now, kind := "join", byId := p.id }] }
    case _ => simp [applyMutation, _addParticipant, _getRoom, hd]
    case _ => rfl
  | removeP i =>
    refine ⟨?_, ?_, ?_⟩
    case _ =>
      exact
        { r with
          participants := r.participants.filter (fun x => x.id != i),
          timeline := r.timeline ++ [{ ts := now, kind := "leave", byId := i }] }
    case _ => simp [applyMutation, _removeParticipant, _getRoom, hd]
    case _ => rfl
  | setF b t c =>
    refine ⟨?_, ?_, ?_⟩
    case _ =>
      exact
        { r with
          focus := { ftype := t, content := c, author := b,
                     authorName := ((d.sessions.lookup b).map Session.name).getD "", ts := now },
          timeline := r.timeline ++ [{ ts := now, kind := "set_focus", byId := b }] }
    case _ => simp [applyMutation, _setFocus, _getRoom, hd]
    case _ => rfl

theorem applyMutations_timelineLen (now : Nat) (ms : List Mutation) :
    ∀ (d : DOState) (r : Room), d.room = some r →
      timelineLen (applyMutations now ms d) = r.timeline.length + ms.length := by
  induction ms with
  | nil => intro d r hd; simp [applyMutations, timelineLen, hd]
  | cons m rest ih =>
    intro d r hd
    obtain ⟨r2, h2, ht⟩ := applyMutation_room now m d r hd
    have hrec := ih (applyMutation now m d).1 r2 h2
    have hstep : applyMutations now (m :: rest) d
        = applyMutations now rest (applyMutation now m d).1 := rfl
    rw [hstep, hrec, ht]
    simp
    omega

/-- C1: every mutation (add participant, remove participant, set focus)
leaves the room present, persists the new room in exactly one write, and that
one written room carries exactly one extra timeline event whose kind matches
the mutation (`join`, `leave`, `set_focus`); hence after any `N` mutations on
a freshly created room the timeline has `N + 1` events (counting
`room_started`). -/
theorem C1_single_event_per_mutation (now now0 : Nat) (m : Mutation) (ms : List Mutation)
    (d : DOState) (r : Room) (hd : d.room = some r) :
    (applyMutation now m d).1.room = some (((applyMutation now m d).1.room).getD r)
    ∧ (applyMutation now m d).2 = [WriteOp.putRoom (((applyMutation now m d).1.room).getD r)]
    ∧ (((applyMutation now m d).1.room).getD r).timeline
        = r.timeline ++ [{ ts := now, kind := mutKind m, byId := mutBy m }]
    ∧ timelineLen (applyMutations now ms (initDO now0)) = ms.length + 1 := by
  have h4 : timelineLen (applyMutations now ms (initDO now0)) = ms.length + 1 := by
    have := applyMutations_timelineLen now ms (initDO now0) (roomInit now0) rfl
    simp [roomInit] at this
    omega
  cases m with
  | addP p =>
    refine ⟨?_, ?_, ?_, h4⟩ <;>
      simp [applyMutation, _addParticipant, _getRoom, hd, mutKind, mutBy]
  | removeP i =>
    refine ⟨?_, ?_, ?_, h4⟩ <;>
      simp [applyMutation, _removeParticipant, _getRoom, hd, mutKind, mutBy]
  | setF b t c =>
    refine ⟨?_, ?_, ?_, h4⟩ <;>
      simp [applyMutation, _setFocus, _getRoom, hd, mutKind, mutBy]

theorem C1_witness :
    ((initDO 0).room = some (roomInit 0))
    ∧ ((applyMutation 2 (Mutation.addP (Participant.mk "a" "A" "r" 2)) (initDO 0)).1.room
        = some (((applyMutation 2 (Mutation.addP (Participant.mk "a" "A" "r" 2)) (initDO 0)).1.room).getD (roomInit 0))
      ∧ (applyMutation 2 (Mutation.addP (Participant.mk "a" "A" "r" 2)) (initDO 0)).2
        = [WriteOp.putRoom (((applyMutation 2 (Mutation.addP (Participant.mk "a" "A" "r" 2)) (initDO 0)).1.room).getD (roomInit 0))]
      ∧ (((applyMutation 2 (Mutation.addP (Participant.mk "a" "A" "r" 2)) (initDO 0)).1.room).getD (roomInit 0)).timeline
        = (roomInit 0).timeline
            ++ [{ ts := 2, kind := mutKind (Mutation.addP (Participant.mk "a" "A" "r" 2)),
                  byId := mutBy (Mutation.addP (Participant.mk "a" "A" "r" 2)) }]
      ∧ timelineLen (applyMutations 2
            [Mutation.addP (Participant.mk "a" "A" "r" 2), Mutation.setF "a" "text" "hi",
             Mutation.removeP "a"] (initDO 0))
        = [Mutation.addP (Participant.mk "a" "A" "r" 2), Mutation.setF "a" "text" "hi",
           Mutation.removeP "a"].length + 1) :=
  ⟨rfl, C1_single_event_per_mutation 2 0 (Mutation.addP (Participant.mk "a" "A" "r" 2))
    [Mutation.addP (Participant.mk "a" "A" "r" 2), Mutation.setF "a" "text" "hi",
     Mutation.removeP "a"] (initDO 0) (roomInit 0) rfl⟩

theorem replay_participants (now : Nat) :
    ∀ (evs : List RoomEv), wfTrace evs = true →
      ∀ (d : DOState) (r : Room), d.room = some r →
        ∃ r2, (replayEvents now evs d).room = some r2
          ∧ r2.participants
            = (r.participants ++ connects evs).filter (fun p => !((discIds evs).contains p.id)) := by
  intro evs
  induction evs with
  | nil =>
    intro _ d r hd
    refine ⟨r, by simp [replayEvents, hd], ?_⟩
    simp [connects, discIds]
  | cons ev rest ih =>
    intro hwf d r hd
    cases ev with
    | connect p =>
      have hwf2 : wfTrace rest = true := by simpa [wfTrace] using hwf
      have hroom : (_addParticipant now p d).1.room = some
          { r with
            participants := r.participants ++ [p],
            timeline := r.timeline ++ [{ ts := now, kind := "join", byId := p.id }] } := by
        simp [_addParticipant, _getRoom, hd]
      obtain ⟨r2, h2, hp⟩ := ih hwf2 _ _ hroom
      refine ⟨r2, h2, ?_⟩
      rw [hp]
      simp [connects, discIds, List.append_assoc]
    | disconnect i =>
      have hwf2 : wfTrace rest = true := by
        have h := hwf
        simp [wfTrace, Bool.and_eq_true] at h
        exact h.2
      have hconn : ∀ p ∈ connects rest, (p.id != i) = true := by
        have h := hwf
        simp [wfTrace, Bool.and_eq_true, List.all_eq_true] at h
        intro p hp
        simpa using h.1 p hp
      have hroom : (_removeParticipant now i d).1.room = some
          { r with
            participants := r.participants.filter (fun x => x.id != i),
            timeline := r.timeline ++ [{ ts := now, kind := "leave", byId := i }] } := by
        simp [_removeParticipant, _getRoom, hd]
      obtain ⟨r2, h2, hp⟩ := ih hwf2 _ _ hroom
      refine ⟨r2, h2, ?_⟩
      rw [hp]
      simp only [connects, discIds, List.filter_append]
      congr 1
      · rw [List.filter_filter]
        apply List.filter_congr
        intro x _
        by_cases hxi : x.id = i <;> simp [hxi]
      · apply List.filter_congr
        intro p hp2
        have hne := hconn p hp2
        by_cases hxi : p.id = i
        · rw [hxi] at hne; simp at hne
        · simp [hxi]

/-- C2: replaying any well-formed sequence of Connect (`_addParticipant`) and
Disconnect (`_removeParticipant`) events on a fresh room yields exactly the
connected participants minus the disconnected ids, in original join order
(removal filters, it never re-sorts).  Well-formed means session ids are
fresh: no Connect reuses an id that was disconnected earlier. -/
theorem C2_roster_is_joins_minus_leaves (now now0 : Nat) (evs : List RoomEv)
    (h : wfTrace evs = true) :
    partsOf (replayEvents now evs (initDO now0))
      = (connects evs).filter (fun p => !((discIds evs).contains p.id)) := by
  obtain ⟨r2, h2, hp⟩ := replay_participants now evs h (initDO now0) (roomInit now0) rfl
  simp [partsOf, h2, hp, roomInit]

theorem C2_witness :
    wfTrace [RoomEv.connect (Participant.mk "a" "Ada" "Host" 1),
             RoomEv.connect (Participant.mk "b" "Bo" "Gast" 2),
             RoomEv.disconnect "a",
             RoomEv.connect (Participant.mk "c" "Cy" "Gast" 3)] = true
    ∧ partsOf (replayEvents 9
        [RoomEv.connect (Participant.mk "a" "Ada" "Host" 1),
         RoomEv.connect (Participant.mk "b" "Bo" "Gast" 2),
         RoomEv.disconnect "a",
         RoomEv.connect (Participant.mk "c" "Cy" "Gast" 3)] (initDO 0))
      = (connects [RoomEv.connect (Participant.mk "a" "Ada" "Host" 1),
          RoomEv.connect (Participant.mk "b" "Bo" "Gast" 2),
          RoomEv.disconnect "a",
          RoomEv.connect (Participant.mk "c" "Cy" "Gast" 3)]).filter
          (fun p => !((discIds [RoomEv.connect (Participant.mk "a" "Ada" "Host" 1),
              RoomEv.connect (Participant.mk "b" "Bo" "Gast" 2),
              RoomEv.disconnect "a",
              RoomEv.connect (Participant.mk "c" "Cy" "Gast" 3)]).contains p.id)) :=
  ⟨rfl, C2_roster_is_joins_minus_leaves 9 0
    [RoomEv.connect (Participant.mk "a" "Ada" "Host" 1),
     RoomEv.connect (Participant.mk "b" "Bo" "Gast" 2),
     RoomEv.disconnect "a",
     RoomEv.connect (Participant.mk "c" "Cy" "Gast" 3)] rfl⟩

theorem handleSetFocus_room (now : Nat) (c : String) (pt pc : Option String)
    (d : DOState) (r : Room) (hd : d.room = some r) :
    (handleSetFocus now c pt pc d).1.room = some
      { r with
        focus := { ftype := if pt = some "text" then "text" else "question",
                   content := clampStr (pc.getD "") 4000, author := c,
                   authorName := ((d.sessions.lookup c).map Session.name).getD "", ts := now },
        timeline := r.timeline ++ [{ ts := now, kind := "set_focus", byId := c }] } := by
  simp [handleSetFocus, _setFocus, _getFocus, _getRoom, hd]

theorem replayOps_focus_const (now : Nat) :
    ∀ ops, noFocusMsg ops = true →
      ∀ (d : DOState) (r : Room), d.room = some r →
        ∃ r2, (replayOps now ops d).room = some r2 ∧ r2.focus = r.focus := by
  intro ops
  induction ops with
  | nil => intro _ d r hd; exact ⟨r, by simp [replayOps, hd], rfl⟩
  | cons op rest ih =>
    intro hno d r hd
    cases op with
    | joinOp p =>
      have hno2 : noFocusMsg rest = true := by simpa [noFocusMsg] using hno
      have hroom : (applyClientOp now (ClientOp.joinOp p) d).room = some
          { r with
            participants := r.participants ++ [p],
            timeline := r.timeline ++ [{ ts := now, kind := "join", byId := p.id }] } := by
        simp [applyClientOp, _addParticipant, _getRoom, hd]
      obtain ⟨r2, h2, hf⟩ := ih hno2 _ _ hroom
      exact ⟨r2, h2, by rw [hf]⟩
    | leaveOp i =>
      have hno2 : noFocusMsg rest = true := by simpa [noFocusMsg] using hno
      have hroom : (applyClientOp now (ClientOp.leaveOp i) d).room = some
          { r with
            participants := r.participants.filter (fun x => x.id != i),
            timeline := r.timeline ++ [{ ts := now, kind := "leave", byId := i }] } := by
        simp [applyClientOp, _removeParticipant, _getRoom, hd]
      obtain ⟨r2, h2, hf⟩ := ih hno2 _ _ hroom
      exact ⟨r2, h2, by rw [hf]⟩
    | focusOp c pt pc =>
      simp [noFocusMsg] at hno

theorem replayOps_focus_wf (now : Nat) :
    ∀ ops (d : DOState) (r : Room), d.room = some r → focusWF r.focus = true →
      ∃ r2, (replayOps now ops d).room = some r2 ∧ focusWF r2.focus = true := by
  intro ops
  induction ops with
  | nil => intro d r hd hwf; exact ⟨r, by simp [replayOps, hd], hwf⟩
  | cons op rest ih =>
    intro d r hd hwf
    cases op with
    | joinOp p =>
      have hroom : (applyClientOp now (ClientOp.joinOp p) d).room = some
          { r with
            participants := r.participants ++ [p],
            timeline := r.timeline ++ [{ ts := now, kind := "join", byId := p.id }] } := by
        simp [applyClientOp, _addParticipant, _getRoom, hd]
      exact ih _ _ hroom hwf
    | leaveOp i =>
      have hroom : (applyClientOp now (ClientOp.leaveOp i) d).room = some
          { r with
            participants := r.participants.filter (fun x => x.id != i),
            timeline := r.timeline ++ [{ ts := now, kind := "leave", byId := i }] } := by
        simp [applyClientOp, _removeParticipant, _getRoom, hd]
      exact ih _ _ hroom hwf
    | focusOp c pt pc =>
      have hroom := handleSetFocus_room now c pt pc d r hd
      refine ih _ _ hroom ?_
      by_cases hpt : pt = some "text" <;> simp [focusWF, hpt]

/-- C9: every room always carries a focus: both creation paths initialise it
to `{type: question, content: "", author: "", authorName: "", ts: startedAt}`,
any sequence of join/leave mutations leaves that default focus in place, and
any sequence of client operations (including `set_focus` messages) keeps the
focus a well-formed `FocusState` whose type stays in {question, text}. -/
theorem C9_focus_always_present (now now0 : Nat) (d : DOState) (hd : d.room = none)
    (ops1 ops2 : List ClientOp) (h1 : noFocusMsg ops1 = true) :
    focusOf (initBranch now0 d).1
      = some { ftype := "question", content := "", author := "", authorName := "", ts := now0 }
    ∧ focusOf (_getRoom now0 d).2.1
      = some { ftype := "question", content := "", author := "", authorName := "", ts := now0 }
    ∧ focusOf (replayOps now ops1 (initDO now0))
      = some { ftype := "question", content := "", author := "", authorName := "", ts := now0 }
    ∧ focusOK (replayOps now ops2 (initDO now0)) = true := by
  refine ⟨by simp [focusOf, initBranch, roomInit],
    by simp [focusOf, _getRoom, hd, freshRoom], ?_, ?_⟩
  · obtain ⟨r2, h2, hf⟩ := replayOps_focus_const now ops1 h1 (initDO now0) (roomInit now0) rfl
    simp [focusOf, h2, hf, roomInit]
  · obtain ⟨r2, h2, hf⟩ :=
      replayOps_focus_wf now ops2 (initDO now0) (roomInit now0) rfl (by simp [focusWF, roomInit])
    simp [focusOK, h2, hf]

theorem C9_witness :
    (emptyDO.room = none
      ∧ noFocusMsg [ClientOp.joinOp (Participant.mk "a" "Ada" "Host" 1)] = true)
    ∧ (focusOf (initBranch 0 emptyDO).1
        = some { ftype := "question", content := "", author := "", authorName := "", ts := 0 }
      ∧ focusOf (_getRoom 0 emptyDO).2.1
        = some { ftype := "question", content := "", author := "", authorName := "", ts := 0 }
      ∧ focusOf (replayOps 1 [ClientOp.joinOp (Participant.mk "a" "Ada" "Host" 1)] (initDO 0))
        = some { ftype := "question", content := "", author := "", authorName := "", ts := 0 }
      ∧ focusOK (replayOps 1 [ClientOp.focusOp "a" (some "weird") (some "x")] (initDO 0)) = true) :=
  ⟨⟨rfl, rfl⟩, C9_focus_always_present 1 0 emptyDO rfl
    [ClientOp.joinOp (Participant.mk "a" "Ada" "Host" 1)]
    [ClientOp.focusOp "a" (some "weird") (some "x")] rfl⟩

theorem clampStr_length (s : String) (max : Nat) : (clampStr s max).length ≤ max := by
  show ((trimChars s.data).take max).length ≤ max
  simp

/-- C5: a `set_focus` message whose payload type is outside {question, text}
(or missing) is never rejected: it is recorded with the default type
`question`, the content is length-capped at 4000, the focus is overwritten
with the sender's session id as author and the sender's cached session name
as authorName together with a `set_focus` timeline event persisted in one
write, and afterwards a `focus` message carrying the new `FocusState` alone
is broadcast to every registered connection. -/
theorem C5_set_focus_defaults_and_broadcast (now : Nat) (c : String) (pt pc : Option String)
    (d : DOState) (r : Room) (hd : d.room = some r)
    (_hq : pt ≠ some "question") (ht : pt ≠ some "text") :
    (handleSetFocus now c pt pc d).1.room = some
      { r with
        focus := { ftype := "question", content := clampStr (pc.getD "") 4000, author := c,
                   authorName := ((d.sessions.lookup c).map Session.name).getD "", ts := now },
        timeline := r.timeline ++ [{ ts := now, kind := "set_focus", byId := c }] }
    ∧ (clampStr (pc.getD "") 4000).length ≤ 4000
    ∧ (handleSetFocus now c pt pc d).1.sessions = d.sessions
    ∧ (handleSetFocus now c pt pc d).2.1 = [WriteOp.putRoom
        { r with
          focus := { ftype := "question", content := clampStr (pc.getD "") 4000, author := c,
                     authorName := ((d.sessions.lookup c).map Session.name).getD "", ts := now },
          timeline := r.timeline ++ [{ ts := now, kind := "set_focus", byId := c }] }]
    ∧ (handleSetFocus now c pt pc d).2.2 = _broadcast (OutMsg.focus
        { ftype := "question", content := clampStr (pc.getD "") 4000, author := c,
          authorName := ((d.sessions.lookup c).map Session.name).getD "", ts := now }) d.sessions
    ∧ ((handleSetFocus now c pt pc d).2.2).map Prod.fst = d.sessions.map Prod.fst := by
  have hft : (if pt = some "text" then "text" else "question") = "question" := if_neg ht
  refine ⟨?_, clampStr_length _ _, ?_, ?_, ?_, ?_⟩ <;>
    simp [handleSetFocus, _setFocus, _getFocus, _getRoom, hd, hft, broadcast_fst]

/-- C4 counterexample: the claim says the three failure cases (empty token,
unknown token, expired token) produce the same externally observable
rejection; the code rejects all three with status 401 but with three
pairwise different response bodies, so the observable failure is not
uniform. -/
theorem C4_counterexample :
    (wsConnect 0 (some "") none none "c" true
        { room := none, invites := [("tok", { createdAt := 0, ttlMs := 5 })],
          sessions := [] }).outcome
      = WsOutcome.reject 401 "Missing token"
    ∧ (wsConnect 0 (some "garbage-token") none none "c" true
        { room := none, invites := [("tok", { createdAt := 0, ttlMs := 5 })],
          sessions := [] }).outcome
      = WsOutcome.reject 401 "Invalid invite"
    ∧ (wsConnect 100 (some "tok") none none "c" true
        { room := none, invites := [("tok", { createdAt := 0, ttlMs := 5 })],
          sessions := [] }).outcome
      = WsOutcome.reject 401 "Invite expired"
    ∧ WsOutcome.reject 401 "Missing token" ≠ WsOutcome.reject 401 "Invalid invite"
    ∧ WsOutcome.reject 401 "Missing token" ≠ WsOutcome.reject 401 "Invite expired"
    ∧ WsOutcome.reject 401 "Invalid invite" ≠ WsOutcome.reject 401 "Invite expired" := by
  decide

/-- C4 (amended): whenever the trimmed length-capped token is empty, unknown,
or expired, the connection attempt is rejected before the WebSocket upgrade
with the uniform HTTP status 401; only the response body distinguishes the
three cases. -/
theorem C4_amended_reject_before_upgrade (now : Nat) (qToken qName qRole : Option String)
    (clientId : String) (ok : Bool) (d : DOState)
    (h : clampStr (qToken.getD "") 200 = ""
       ∨ d.invites.lookup (clampStr (qToken.getD "") 200) = none
       ∨ (d.invites.lookup (clampStr (qToken.getD "") 200)).map
           (fun e => decide (now - e.createdAt ≤ e.ttlMs)) = some false) :
    (wsConnect now qToken qName qRole clientId ok d).outcome
        = WsOutcome.reject 401 "Missing token"
    ∨ (wsConnect now qToken qName qRole clientId ok d).outcome
        = WsOutcome.reject 401 "Invalid invite"
    ∨ (wsConnect now qToken qName qRole clientId ok d).outcome
        = WsOutcome.reject 401 "Invite expired" := by
  by_cases htok : clampStr (qToken.getD "") 200 = ""
  · left
    simp [wsConnect, htok]
  · rcases h with h1 | h2 | h3
    · exact absurd h1 htok
    · right; left
      simp [wsConnect, htok, validateToken, h2]
    · right; right
      cases hl : d.invites.lookup (clampStr (qToken.getD "") 200) with
      | none => rw [hl] at h3; simp at h3
      | some e =>
        rw [hl] at h3
        simp at h3
        have hgt : e.ttlMs < now - e.createdAt := by omega
        simp [wsConnect, htok, validateToken, hl, hgt]

theorem C4_amended_witness :
    (clampStr ((some "garbage-token").getD "") 200 = ""
      ∨ List.lookup (clampStr ((some "garbage-token").getD "") 200)
          ([("tok", InviteEntry.mk 0 5)] : List (String × InviteEntry)) = none
      ∨ (List.lookup (clampStr ((some "garbage-token").getD "") 200)
          ([("tok", InviteEntry.mk 0 5)] : List (String × InviteEntry))).map
          (fun e => decide (0 - e.createdAt ≤ e.ttlMs)) = some false)
    ∧ ((wsConnect 0 (some "garbage-token") none none "c" true
          { room := none, invites := [("tok", InviteEntry.mk 0 5)], sessions := [] }).outcome
        = WsOutcome.reject 401 "Missing token"
      ∨ (wsConnect 0 (some "garbage-token") none none "c" true
          { room := none, invites := [("tok", InviteEntry.mk 0 5)], sessions := [] }).outcome
        = WsOutcome.reject 401 "Invalid invite"
      ∨ (wsConnect 0 (some "garbage-token") none none "c" true
          { room := none, invites := [("tok", InviteEntry.mk 0 5)], sessions := [] }).outcome
        = WsOutcome.reject 401 "Invite expired") :=
  ⟨Or.inr (Or.inl (by decide)),
   C4_amended_reject_before_upgrade 0 (some "garbage-token") none none "c" true
     { room := none, invites := [("tok", InviteEntry.mk 0 5)], sessions := [] }
     (Or.inr (Or.inl (by decide)))⟩

theorem C5_witness :
    (({ room := some (roomInit 0), invites := [],
        sessions := [("c1", Session.mk "Ada" "Host" true)] } : DOState).room
          = some (roomInit 0)
      ∧ (some "weird" : Option String) ≠ some "question"
      ∧ (some "weird" : Option String) ≠ some "text")
    ∧ (handleSetFocus 7 "c1" (some "weird") (some "hello")
        { room := some (roomInit 0), invites := [],
          sessions := [("c1", Session.mk "Ada" "Host" true)] }).1.room = some
      { (roomInit 0) with
        focus := FocusState.mk "question" "hello" "c1" "Ada" 7,
        timeline := (roomInit 0).timeline ++ [{ ts := 7, kind := "set_focus", byId := "c1" }] }
    ∧ (handleSetFocus 7 "c1" (some "weird") (some "hello")
        { room := some (roomInit 0), invites := [],
          sessions := [("c1", Session.mk "Ada" "Host" true)] }).2.2
      = _broadcast (OutMsg.focus (FocusState.mk "question" "hello" "c1" "Ada" 7))
          [("c1", Session.mk "Ada" "Host" true)] :=
  ⟨⟨rfl, by decide, by decide⟩,
   (C5_set_focus_defaults_and_broadcast 7 "c1" (some "weird") (some "hello")
     { room := some (roomInit 0), invites := [],
       sessions := [("c1", Session.mk "Ada" "Host" true)] } (roomInit 0) rfl
     (by decide) (by decide)).1,
   (C5_set_focus_defaults_and_broadcast 7 "c1" (some "weird") (some "hello")
     { room := some (roomInit 0), invites := [],
       sessions := [("c1", Session.mk "Ada" "Host" true)] } (roomInit 0) rfl
     (by decide) (by decide)).2.2.2.2.1⟩

/-! ### Token encoding lemmas for C8 -/

theorem urlInv_repl_b64 (n : Nat) (h : n < 64) : urlInv (replUrl (b64Char n)) = n := by
  have hall : ∀ m : Fin 64, urlInv (replUrl (b64Char m.val)) = m.val := by decide
  exact hall ⟨n, h⟩

theorem urlSafe_repl_b64 (n : Nat) (h : n < 64) : urlSafeChar (replUrl (b64Char n)) = true := by
  have hall : ∀ m : Fin 64, urlSafeChar (replUrl (b64Char m.val)) = true := by decide
  exact hall ⟨n, h⟩

theorem repl_b64_ne_pad (n : Nat) (h : n < 64) : (replUrl (b64Char n) != '=') = true := by
  have hall : ∀ m : Fin 64, (replUrl (b64Char m.val) != '=') = true := by decide
  exact hall ⟨n, h⟩

theorem b64_roundtrip :
    ∀ l : List Nat, l.all (fun b => b < 256) = true → l.length % 3 = 0 →
      b64decode ((b64encode l).map replUrl) = l := by
  intro l
  induction l using b64encode.induct with
  | case1 => intro _ _; rfl
  | case2 a => intro _ h3; simp at h3
  | case3 a b => intro _ h3; simp at h3
  | case4 a b c rest ih =>
    intro hall h3
    simp only [List.all_cons, Bool.and_eq_true, decide_eq_true_eq] at hall
    obtain ⟨ha, hb, hc, hrest⟩ := hall
    have h3r : rest.length % 3 = 0 := by simp at h3; omega
    have e1 : a / 4 < 64 := by omega
    have e2 : (a % 4) * 16 + b / 16 < 64 := by omega
    have e3 : (b % 16) * 4 + c / 64 < 64 := by omega
    have e4 : c % 64 < 64 := by omega
    have hrec : b64decode ((b64encode rest).map replUrl) = rest := ih hrest h3r
    show b64decode ((encode3 a b c ++ b64encode rest).map replUrl) = a :: b :: c :: rest
    simp only [encode3, List.map_append, List.map_cons, List.map_nil, List.cons_append,
      List.nil_append, b64decode, decode4,
      urlInv_repl_b64 _ e1, urlInv_repl_b64 _ e2, urlInv_repl_b64 _ e3, urlInv_repl_b64 _ e4,
      hrec, List.cons.injEq]
    refine ⟨by omega, by omega, by omega, by simpa using hrec⟩

theorem b64encode_chars :
    ∀ l : List Nat, l.all (fun b => b < 256) = true → l.length % 3 = 0 →
      ∀ ch ∈ b64encode l, ∃ v, v < 64 ∧ ch = b64Char v := by
  intro l
  induction l using b64encode.induct with
  | case1 => intro _ _ ch hch; simp [b64encode] at hch
  | case2 a => intro _ h3; simp at h3
  | case3 a b => intro _ h3; simp at h3
  | case4 a b c rest ih =>
    intro hall h3 ch hch
    simp only [List.all_cons, Bool.and_eq_true, decide_eq_true_eq] at hall
    obtain ⟨ha, hb, hc, hrest⟩ := hall
    have h3r : rest.length % 3 = 0 := by simp at h3; omega
    rw [show b64encode (a :: b :: c :: rest) = encode3 a b c ++ b64encode rest from rfl,
      List.mem_append] at hch
    rcases hch with hch | hch
    · simp only [encode3, List.mem_cons, List.not_mem_nil, or_false] at hch
      rcases hch with h | h | h | h
      · exact ⟨a / 4, by omega, h⟩
      · exact ⟨(a % 4) * 16 + b / 16, by omega, h⟩
      · exact ⟨(b % 16) * 4 + c / 64, by omega, h⟩
      · exact ⟨c % 64, by omega, h⟩
    · exact ih hrest h3r ch hch

theorem b64encode_no_pad (l : List Nat) (hall : l.all (fun b => b < 256) = true)
    (h3 : l.length % 3 = 0) :
    ((b64encode l).map replUrl).all (fun ch => ch != '=') = true := by
  rw [List.all_eq_true]
  intro ch hch
  obtain ⟨c0, hc0, rfl⟩ := List.mem_map.mp hch
  obtain ⟨v, hv, rfl⟩ := b64encode_chars l hall h3 c0 hc0
  exact repl_b64_ne_pad v hv

theorem b64encode_length :
    ∀ l : List Nat, l.length % 3 = 0 → (b64encode l).length = l.length / 3 * 4 := by
  intro l
  induction l using b64encode.induct with
  | case1 => intro _; rfl
  | case2 a => intro h3; simp at h3
  | case3 a b => intro h3; simp at h3
  | case4 a b c rest ih =>
    intro h3
    have h3r : rest.length % 3 = 0 := by simp at h3; omega
    simp [encode3, b64encode, ih h3r]
    omega

theorem makeToken_data (l : List Nat) (hall : l.all (fun b => b < 256) = true)
    (h3 : l.length % 3 = 0) :
    (makeToken l).data = (b64encode l).map replUrl := by
  show ((b64encode l).map replUrl).filter (fun c => c != '=') = (b64encode l).map replUrl
  exact List.filter_eq_self.mpr (List.all_eq_true.mp (b64encode_no_pad l hall h3))

theorem makeToken_inj (l1 l2 : List Nat)
    (hall1 : l1.all (fun b => b < 256) = true) (h31 : l1.length % 3 = 0)
    (hall2 : l2.all (fun b => b < 256) = true) (h32 : l2.length % 3 = 0)
    (hEq : makeToken l1 = makeToken l2) : l1 = l2 := by
  have hdata : (makeToken l1).data = (makeToken l2).data := congrArg String.data hEq
  rw [makeToken_data l1 hall1 h31, makeToken_data l2 hall2 h32] at hdata
  have hdec := congrArg b64decode hdata
  rwa [b64_roundtrip l1 hall1 h31, b64_roundtrip l2 hall2 h32] at hdec

theorem makeToken_urlsafe (l : List Nat) (hall : l.all (fun b => b < 256) = true)
    (h3 : l.length % 3 = 0) :
    (makeToken l).data.all urlSafeChar = true := by
  rw [makeToken_data l hall h3, List.all_eq_true]
  intro ch hch
  obtain ⟨c0, hc0, rfl⟩ := List.mem_map.mp hch
  obtain ⟨v, hv, rfl⟩ := b64encode_chars l hall h3 c0 hc0
  exact urlSafe_repl_b64 v hv

/-- C8: `makeToken` over the 18 random bytes is injective (so the token space
has 256^18 = 2^144 ≥ 2^128 values, i.e. at least 128 bits of entropy when the
bytes are uniformly random) and uses only the URL-safe alphabet; the invite
branch records `{createdAt: now, ttl: 15 minutes}` under the token, persists
the updated invite set in one write, and returns the token together with its
absolute expiry `now + ttl`. -/
theorem C8_issue_token (now : Nat) (bytes1 bytes2 : List Nat) (d : DOState)
    (h1 : byteListOK bytes1 = true) (h2 : byteListOK bytes2 = true)
    (hEq : makeToken bytes1 = makeToken bytes2) :
    bytes1 = bytes2
    ∧ (makeToken bytes1).data.all urlSafeChar = true
    ∧ (makeToken bytes1).length = 24
    ∧ 2 ^ 128 ≤ 256 ^ 18
    ∧ (inviteBranch now (makeToken bytes1) d).1 = (makeToken bytes1, now + INVITE_TTL_MS)
    ∧ INVITE_TTL_MS = 15 * 60 * 1000
    ∧ ((inviteBranch now (makeToken bytes1) d).2.1.invites).lookup (makeToken bytes1)
        = some { createdAt := now, ttlMs := INVITE_TTL_MS }
    ∧ (inviteBranch now (makeToken bytes1) d).2.2
        = [WriteOp.putInvites ((inviteBranch now (makeToken bytes1) d).2.1.invites)] := by
  simp only [byteListOK, Bool.and_eq_true, beq_iff_eq] at h1 h2
  obtain ⟨hlen1, hall1⟩ := h1
  obtain ⟨hlen2, hall2⟩ := h2
  have h31 : bytes1.length % 3 = 0 := by omega
  have h32 : bytes2.length % 3 = 0 := by omega
  refine ⟨makeToken_inj bytes1 bytes2 hall1 h31 hall2 h32 hEq,
    makeToken_urlsafe bytes1 hall1 h31, ?_, by norm_num, rfl, rfl,
    lookup_setKV_self _ _ _, rfl⟩
  show (makeToken bytes1).data.length = 24
  rw [makeToken_data bytes1 hall1 h31, List.length_map, b64encode_length bytes1 h31, hlen1]

theorem C8_witness :
    (byteListOK (List.replicate 18 0) = true
      ∧ byteListOK (List.replicate 18 0) = true
      ∧ makeToken (List.replicate 18 0) = makeToken (List.replicate 18 0))
    ∧ (List.replicate 18 0 = List.replicate 18 0
      ∧ (makeToken (List.replicate 18 0)).data.all urlSafeChar = true
      ∧ (makeToken (List.replicate 18 0)).length = 24
      ∧ 2 ^ 128 ≤ 256 ^ 18
      ∧ (inviteBranch 3 (makeToken (List.replicate 18 0)) emptyDO).1
          = (makeToken (List.replicate 18 0), 3 + INVITE_TTL_MS)
      ∧ INVITE_TTL_MS = 15 * 60 * 1000
      ∧ ((inviteBranch 3 (makeToken (List.replicate 18 0)) emptyDO).2.1.invites).lookup
            (makeToken (List.replicate 18 0))
          = some { createdAt := 3, ttlMs := INVITE_TTL_MS }
      ∧ (inviteBranch 3 (makeToken (List.replicate 18 0)) emptyDO).2.2
          = [WriteOp.putInvites
              ((inviteBranch 3 (makeToken (List.replicate 18 0)) emptyDO).2.1.invites)]) :=
  ⟨⟨by decide, by decide, rfl⟩,
   C8_issue_token 3 (List.replicate 18 0) (List.replicate 18 0) emptyDO
     (by decide) (by decide) rfl⟩

end VTR
